import Mathlib

/-!
Shallow embedding of the log-analysis pipeline of this repository
(`src/main.py`, `src/config.py`): line parser, per-file aggregation,
multi-file merge, report rendering and the analyze driver.

Python dictionaries are embedded as insertion-ordered association lists
with first-match lookup; Python exceptions are embedded as `Except PyErr`.
File lines are given without their trailing newline: the patterns below
never let a trailing `"\n"` influence any result (the level pattern stops
at a closing bracket and `.` does not match newline, and the handler
pattern stops at a closing bracket).
-/

namespace Workmate

/-- `config.LOG_LEVELS` from `src/config.py`. -/
def LOG_LEVELS : List String := ["DEBUG", "INFO", "WARNING", "ERROR", "CRITICAL"]

/-! ### The compiled regular expression `config.LOG_PATTERN`

`LOG_PATTERN` is
`^\[(?P<timestamp>.+?)\] \[(?P<level>.+?)\] \[django\.requests\] \[(?P<handler>.+?)\]`.
We embed `re.search(LOG_PATTERN, line)` directly: the `^` anchor forces the
match to start at position 0, each `.+?` is a lazy one-or-more of
non-newline characters (shortest first, with backtracking), and the
literal pieces are matched verbatim.  The matchers below work on the
remaining input and return the unconsumed suffix on success, so the full
match (`group()` with no argument, which is what `main.py` uses) is the
consumed prefix. -/

/-- Match a literal character sequence, returning the unconsumed suffix. -/
def matchLit : List Char → List Char → Option (List Char)
  | [], s => some s
  | c :: cs, d :: s => if d = c then matchLit cs s else none
  | _ :: _, [] => none

/-- Backtracking loop of a lazy `.+?`: first try the continuation `k` at the
current position, otherwise consume one more non-newline character. -/
def lazyLoop (k : List Char → Option (List Char)) : List Char → Option (List Char)
  | [] => k []
  | c :: s =>
    match k (c :: s) with
    | some r => some r
    | none => if c = '\n' then none else lazyLoop k s

/-- A lazy `.+?` followed by the continuation `k`: at least one non-newline
character is consumed, then the shortest extension making `k` succeed wins. -/
def lazyPlus (k : List Char → Option (List Char)) : List Char → Option (List Char)
  | [] => none
  | c :: s => if c = '\n' then none else lazyLoop k s

/-- The anchored `LOG_PATTERN` applied at position 0; returns the suffix left
over after the full match. -/
def logPatternSuffix (s : List Char) : Option (List Char) :=
  (matchLit ['['] s).bind (lazyPlus (fun s1 =>
    (matchLit "] [".toList s1).bind (lazyPlus (fun s2 =>
      (matchLit "] [django.requests] [".toList s2).bind (lazyPlus (fun s3 =>
        matchLit [']'] s3))))))

/-- `re.search(LOG_PATTERN, line)` followed by `.group()`: the whole text
matched by the (anchored) pattern, or `none` when the pattern does not
match, in which case `main.py`'s `.group()` call raises `AttributeError`. -/
def logPatternGroup0 (line : String) : Option String :=
  (logPatternSuffix line.toList).map (fun suffix =>
    String.mk (line.toList.take (line.toList.length - suffix.length)))

/-! ### The handler pattern

`main.py` and `tests.py` both import `HANDLER_PATTERN` from `config.py`,
but `src/config.py` does not define it. -/

/-- Split a character list at the first `]`, returning the content before it
and the rest after it; `none` when no `]` occurs. -/
def splitAtRB : List Char → Option (List Char × List Char)
  | [] => none
  | c :: r => if c = ']' then some ([], r) else
      (splitAtRB r).map (fun p => (c :: p.1, p.2))

/-- Modelled from the spec: `HANDLER_PATTERN` is missing from
`src/config.py` (it is imported by `main.py` and by `tests.py` but never
defined in the source).  Per the spec it is "a second, independent pattern"
that captures "a handler (a bracketed path-like token) anywhere in the
line", and the repository's tests show that the captured text is the path
without its brackets (e.g. `/api/v1/test/`).  We model it as the first
`[`-bracketed, `]`-closed token whose content begins with `/`, returning
the content without the brackets. -/
def handlerSearchAux : List Char → Option String
  | [] => none
  | '[' :: rest =>
    match rest with
    | '/' :: _ =>
      match splitAtRB rest with
      | some p => some (String.mk p.1)
      | none => handlerSearchAux rest
    | _ => handlerSearchAux rest
  | _ :: rest => handlerSearchAux rest

/-- `re.search(HANDLER_PATTERN, line)` followed by `.group()` (see
`handlerSearchAux`). -/
def handlerSearch (line : String) : Option String :=
  handlerSearchAux line.toList

/-! ### Python dictionaries as association lists -/

/-- Python `d[k]` / `k in d`: first-match lookup in an association list. -/
def dLookup {α : Type} : List (String × α) → String → Option α
  | [], _ => none
  | (k', v) :: d, k => if k' = k then some v else dLookup d k

/-- Python `d[k] = v`: replace the value at the first entry with key `k`,
or append a new entry when `k` is absent. -/
def dSet {α : Type} : List (String × α) → String → α → List (String × α)
  | [], k, v => [(k, v)]
  | (k', v') :: d, k, v =>
    if k' = k then (k, v) :: d else (k', v') :: dSet d k v

/-- A per-handler table of per-level counts (`Dict[str, int]`). -/
abbrev Counts := List (String × Nat)

/-- A per-file or merged table (`Dict[str, Dict[str, int]]`). -/
abbrev Table := List (String × Counts)

/-- The Python exceptions that the pipeline can raise. -/
inductive PyErr : Type
  | attributeError : PyErr
  | keyError : String → PyErr
  | fileNotFound : String → PyErr
  | valueError : String → PyErr
deriving DecidableEq, Repr

/-! ### `LogParser.parse_log_line` -/

/-- `LogParser.parse_log_line` (`main.py` lines 15-35):
`level = search(self.log_pattern, line).group()` raises `AttributeError`
when the pattern does not match (`search` returns `None`); otherwise the
level is the whole matched text.  The handler is searched with the second
pattern and returned without further checks when present. -/
def parse_log_line (line : String) : Except PyErr (String × Option String) :=
  match logPatternGroup0 line with
  | none => .error .attributeError
  | some level =>
    match handlerSearch line with
    | some h => .ok (level, some h)
    | none => .ok (level, none)

/-! ### `AsyncLogFileReader.parse_log_file` -/

/-- `{level_info: 0 for level_info in self.parser.log_levels}`. -/
def zeroCounts : Counts := LOG_LEVELS.map (fun l => (l, 0))

/-- Python `c[level] += 1` on an inner dict: `KeyError` when the key is
absent, otherwise the value is replaced by its successor. -/
def bumpCount (c : Counts) (level : String) : Except PyErr Counts :=
  match dLookup c level with
  | some n => .ok (dSet c level (n + 1))
  | none => .error (.keyError level)

/-- The first `if` of the loop body (`main.py` lines 76-78):
`if handler and handler not in data: data[handler] = zeros; cache = handler`. -/
def ensureNew (st : Table × Option String) : Option String → Table × Option String
  | some h =>
    if (dLookup st.1 h).isNone then (dSet st.1 h zeroCounts, some h) else st
  | none => st

/-- One iteration of the `async for` loop of `parse_log_file`
(`main.py` lines 73-85), acting on the state `(data, cache)`: after
`ensureNew`, the second `if` (`if handler:` increment and set the cache)
and the third (`if not handler and cache:` increment the cached handler). -/
def fileStep (st : Table × Option String) (line : String) :
    Except PyErr (Table × Option String) :=
  match parse_log_line line with
  | .error e => .error e
  | .ok (level, handlerOpt) =>
    let st1 := ensureNew st handlerOpt
    match handlerOpt with
    | some h =>
      match dLookup st1.1 h with
      | some c => (bumpCount c level).map (fun c' => (dSet st1.1 h c', some h))
      | none => .error (.keyError h)
    | none =>
      match st1.2 with
      | some hc =>
        match dLookup st1.1 hc with
        | some c => (bumpCount c level).map (fun c' => (dSet st1.1 hc c', st1.2))
        | none => .error (.keyError hc)
      | none => .ok st1

/-- The whole loop of `parse_log_file`; an exception raised at any line
propagates and aborts the remaining lines. -/
def parseLines (st : Table × Option String) :
    List String → Except PyErr (Table × Option String)
  | [] => .ok st
  | line :: rest =>
    match fileStep st line with
    | .error e => .error e
    | .ok st' => parseLines st' rest

/-- `AsyncLogFileReader.parse_log_file` (`main.py` lines 58-87) on the list
of lines of the file: `data = {}`, `cache = None`, then the loop. -/
def parse_log_file (lines : List String) : Except PyErr Table :=
  (parseLines ([], none) lines).map Prod.fst

/-! ### `LogDataMerger.merge` -/

/-- The innermost statement of `merge`:
`if level in self.log_levels: final_result[handler][level] += count`.
The read `final_result[handler][level]` never raises here: `handler` was
ensured present, its counts were initialized with exactly the keys of
`LOG_LEVELS`, and only keys passing the `level in self.log_levels` guard
are ever updated, so the key is always present and the `getD` defaults are
never taken. -/
def mergeLevelStep (handler : String) (f : Table) (lc : String × Nat) : Table :=
  if LOG_LEVELS.contains lc.1 then
    let c := (dLookup f handler).getD []
    dSet f handler (dSet c lc.1 ((dLookup c lc.1).getD 0 + lc.2))
  else f

/-- The body of `merge`'s outer `for handler, levels in data.items()` loop:
zero-initialize an unseen handler, then fold the level counts in. -/
def mergeEntry (f : Table) (e : String × Counts) : Table :=
  let f := if (dLookup f e.1).isNone then dSet f e.1 zeroCounts else f
  e.2.foldl (mergeLevelStep e.1) f

/-- `for data in data_list: for handler, levels in data.items(): ...` -/
def mergeTable (f : Table) (data : Table) : Table :=
  data.foldl mergeEntry f

/-- `LogDataMerger.merge` (`main.py` lines 95-116): start from
`final_result = {}` and fold every table of `data_list` in. -/
def merge (data_list : List Table) : Table :=
  data_list.foldl mergeTable []

/-! ### `ReportGenerator` -/

/-- Python `s.ljust(w)`: pad with spaces on the right up to width `w`
(unchanged when already at least `w` characters long). -/
def pyLjust (s : String) (w : Nat) : String :=
  s ++ String.mk (List.replicate (w - s.length) ' ')

/-- `ReportGenerator.format_out` (`main.py` lines 124-138): the handler
truncated to 25 characters and left-justified, then one 8-wide
left-justified column per level (`levels.get(level, 0)`), tab-separated. -/
def format_out (handler : String) (levels : Counts) : String :=
  let handler_out := pyLjust (handler.take 25) 25
  let levels_out := LOG_LEVELS.map
    (fun l => pyLjust (toString ((dLookup levels l).getD 0)) 8)
  handler_out ++ "\t" ++ String.intercalate "\t" levels_out

/-- The header row of `report_out`. -/
def reportHeader : String :=
  pyLjust "HANDLER" 25 ++ "\t" ++
    String.intercalate "\t" (LOG_LEVELS.map (fun l => pyLjust l 8))

/-- `sorted(data.keys())`: Python sorts strings ascending lexicographically
by code points, which is Lean's `≤` on `String`. -/
def sortedHandlers (data : Table) : List String :=
  (data.map Prod.fst).mergeSort (fun a b => decide (a ≤ b))

/-- The inner `for level in self.log_levels` loop of `report_out`: update
`requests_by_level[level]` and `total_requests` by `levels.get(level, 0)`.
`requests_by_level` starts as `zeroCounts`, so the incremented key is
always present. -/
def levelTallyStep (levels : Counts) (acc : Counts × Nat) (level : String) :
    Counts × Nat :=
  let count := (dLookup levels level).getD 0
  (dSet acc.1 level ((dLookup acc.1 level).getD 0 + count), acc.2 + count)

/-- The `for handler in sorted_handlers` loop of `report_out`, carrying the
accumulated lines, `requests_by_level` and `total_requests`.  The read
`data[handler]` never raises: the handlers iterated are exactly
`data.keys()`. -/
def reportRow (data : Table) (acc : List String × Counts × Nat)
    (handler : String) : List String × Counts × Nat :=
  let levels := (dLookup data handler).getD []
  let lines := acc.1 ++ [format_out handler levels]
  let tallied := LOG_LEVELS.foldl (levelTallyStep levels) (acc.2.1, acc.2.2)
  (lines, tallied.1, tallied.2)

/-- The state of `report_out`'s loop after all handler rows: the lines so
far (header first), `requests_by_level`, and `total_requests`. -/
def reportAcc (data : Table) : List String × Counts × Nat :=
  (sortedHandlers data).foldl (reportRow data) ([reportHeader], zeroCounts, 0)

/-- `ReportGenerator.report_out` (`main.py` lines 140-176). -/
def report_out (data : Table) : String :=
  let acc := reportAcc data
  let total_line := pyLjust "" 25 ++ "\t" ++
    String.intercalate "\t" (LOG_LEVELS.map
      (fun l => pyLjust (toString ((dLookup acc.2.1 l).getD 0)) 8))
  String.intercalate "\n"
    (("Total requests: " ++ toString acc.2.2) :: "" :: (acc.1 ++ [total_line]))

/-! ### `AsyncLogAnalyzer` -/

/-- An abstract file system: a path maps to the list of lines of an
existing regular file, or to `none` (`os.path.isfile` false). -/
def FS : Type := String → Option (List String)

/-- `AsyncLogAnalyzer.validate_files` (`main.py` lines 188-199): raise
`FileNotFoundError` at the first path that is not an existing file. -/
def validate_files (fs : FS) : List String → Except PyErr Unit
  | [] => .ok ()
  | p :: rest =>
    if (fs p).isNone then .error (.fileNotFound p)
    else validate_files fs rest

/-- Opening and parsing one file (`read_file_lines` + `parse_log_file`);
`open` raises `FileNotFoundError` when the path is gone. -/
def readAndParse (fs : FS) (p : String) : Except PyErr Table :=
  match fs p with
  | some lines => parse_log_file lines
  | none => .error (.fileNotFound p)

/-- `asyncio.gather` over the per-file parse tasks: the list of tables in
input order, or the exception of a failed task. -/
def gatherTables (fs : FS) : List String → Except PyErr (List Table)
  | [] => .ok []
  | p :: rest =>
    match readAndParse fs p with
    | .error e => .error e
    | .ok t => (gatherTables fs rest).map (t :: ·)

/-- `AsyncLogAnalyzer.analyze` (`main.py` lines 201-224): validate all
paths, parse every file, merge, then render the `handlers` report (any
other report type raises `ValueError`). -/
def analyze (fs : FS) (file_paths : List String) (report_type : String) :
    Except PyErr String :=
  match validate_files fs file_paths with
  | .error e => .error e
  | .ok _ =>
    match gatherTables fs file_paths with
    | .error e => .error e
    | .ok data_list =>
      let merged := merge data_list
      if report_type = "handlers" then .ok (report_out merged)
      else .error (.valueError ("Unknown report type: " ++ report_type))

/-! ### A heap model of `merge`, for the frame / no-aliasing claim

Python's inner dicts are mutable objects.  To state that `merge` neither
mutates its inputs nor shares mutable state with them, we re-run the same
`merge` code over an explicit heap: every inner `Dict[str, int]` is a heap
cell, tables map handlers to cell references, `{level: 0 ...}` allocates a
fresh cell at the end of the heap, and `final_result[handler][level] += count`
writes through `final_result`'s reference.  The outer dicts of the inputs
are only ever read by `merge` (`data.items()`), so only the inner cells
need heap residence. -/

/-- A reference to a heap-allocated inner dict. -/
abbrev Ref := Nat

/-- The heap of inner dicts; allocation appends at the end. -/
abbrev Heap := List Counts

/-- A table whose inner dicts live on the heap. -/
abbrev HTable := List (String × Ref)

/-- The guarded `final_result[handler][level] += count` over the heap:
look up `final_result`'s own cell for the handler and write through it
(never to an input cell, which is only read). -/
def hLevelStep (k : String) (st2 : Heap × HTable) (lc : String × Nat) :
    Heap × HTable :=
  if LOG_LEVELS.contains lc.1 then
    match dLookup st2.2 k with
    | some rf =>
      let c := st2.1.getD rf []
      (st2.1.set rf (dSet c lc.1 ((dLookup c lc.1).getD 0 + lc.2)), st2.2)
    | none => st2
  else st2

/-- The body of `merge`'s handler loop, over the heap: zero-initializing an
unseen handler allocates a fresh cell at the end of the heap, then the
level counts of the input cell `e.2` (only read) are folded in. -/
def hMergeEntry (st : Heap × HTable) (e : String × Ref) : Heap × HTable :=
  let st :=
    if (dLookup st.2 e.1).isNone then
      (st.1 ++ [zeroCounts], dSet st.2 e.1 st.1.length)
    else st
  let levels := st.1.getD e.2 []
  levels.foldl (hLevelStep e.1) st

/-- `LogDataMerger.merge` over the explicit heap: fold every entry of every
input table into `final_result = {}`, returning the final heap and the
result table of references. -/
def hMerge (hp : Heap) (data_list : List HTable) : Heap × HTable :=
  data_list.foldl (fun st data => data.foldl hMergeEntry st) (hp, [])

/-! ## Extensional characterization of `merge`

`merge` only ever reads its inputs through `data.items()` and
`levels.items()`, so its result is determined by, for every handler `h`
and level `l`, the total count contributed to `(h, l)` by all entries of
all input tables.  The following sums express that. -/

/-- Total count recorded for level `l` across the items of one inner dict
(summing duplicates, which real Python dicts cannot have). -/
def countSumAt (c : Counts) (l : String) : Nat :=
  (c.map (fun e => if e.1 = l then e.2 else 0)).sum

/-- Total count recorded for `(h, l)` across the items of one table. -/
def entrySumAt (t : Table) (h l : String) : Nat :=
  (t.map (fun e => if e.1 = h then countSumAt e.2 l else 0)).sum

/-- Total count recorded for `(h, l)` across a list of tables. -/
def tablesSumAt (ts : List Table) (h l : String) : Nat :=
  (ts.map (fun t => entrySumAt t h l)).sum

/-- Python `h in t.keys()` as a Bool over the item list. -/
def hasKey {α : Type} (t : List (String × α)) (h : String) : Bool :=
  t.any (fun e => e.1 = h)

/-- Some table of the list has `h` among its keys. -/
def anyHasKey (ts : List Table) (h : String) : Bool :=
  ts.any (fun t => hasKey t h)

/-- The count stored for level `l`, 0 when absent. -/
def cVal (c : Counts) (l : String) : Nat := (dLookup c l).getD 0

/-- The count stored for `(h, l)`, 0 when the handler or level is absent. -/
def tVal (f : Table) (h l : String) : Nat := cVal ((dLookup f h).getD []) l

/-- The inner dict has exactly the five levels as keys. -/
def levelsComplete (c : Counts) : Prop :=
  ∀ l, (dLookup c l).isSome = LOG_LEVELS.contains l

/-- Invariant of `merge`'s accumulator: unique handler keys, and every
inner dict zero-filled over exactly the five levels with unique keys. -/
def TInv (f : Table) : Prop :=
  (f.map Prod.fst).Nodup ∧
  ∀ h c, dLookup f h = some c → levelsComplete c ∧ (c.map Prod.fst).Nodup

/-- The cell observed through Python lookups: `none` when the handler is
absent, `some none` when the handler is there but the level key is not,
`some (some n)` for a stored count. -/
def cellAt (t : Table) (h l : String) : Option (Option Nat) :=
  (dLookup t h).map (fun c => dLookup c l)

/-- Python `==` on the nested dict-of-dict-of-int structures: same handler
keys, and per handler the same level keys with the same counts. -/
def tableEqv (t1 t2 : Table) : Prop :=
  ∀ h l, cellAt t1 h l = cellAt t2 h l

/-- All inner dicts of a per-file table are zero-filled over the five
levels. -/
def PComplete (data : Table) : Prop :=
  ∀ h c, dLookup data h = some c → levelsComplete c

/-- The total printed in one handler row of the report: the five
`levels.get(level, 0)` cells. -/
def rowTotal (c : Counts) : Nat :=
  (LOG_LEVELS.map (fun l => (dLookup c l).getD 0)).sum

/-- The sum of every cell of the rendered body of a table: per entry, the
five per-level cells (missing levels count 0). -/
def bodyTotal (data : Table) : Nat :=
  (data.map (fun e => rowTotal e.2)).sum

/-- Frame invariant of the heap-level `merge`: the heap only grows, the
cells that existed before the call are untouched, and every cell the
result table references was allocated during the call. -/
def HInv (hp₀ : Heap) (st : Heap × HTable) : Prop :=
  hp₀.length ≤ st.1.length ∧
  (∀ i, i < hp₀.length → st.1[i]? = hp₀[i]?) ∧
  (∀ e ∈ st.2, hp₀.length ≤ e.2 ∧ e.2 < st.1.length)


/-! ## Association-list (Python dict) lemmas -/

theorem dLookup_dSet {α : Type} (d : List (String × α)) (k k' : String) (v : α) :
    dLookup (dSet d k v) k' = if k = k' then some v else dLookup d k' := by
  induction d with
  | nil => by_cases h : k = k' <;> simp [dSet, dLookup, h]
  | cons e d ih =>
    obtain ⟨k₀, v₀⟩ := e
    by_cases h : k₀ = k
    · subst h
      by_cases h2 : k₀ = k' <;> simp [dSet, dLookup, h2]
    · by_cases h' : k₀ = k'
      · subst h'
        have h2 : k ≠ k₀ := fun hh => h hh.symm
        simp [dSet, dLookup, h, h2]
      · simp [dSet, dLookup, h, h', ih]

theorem dLookup_mem {α : Type} (d : List (String × α)) (k : String) (v : α)
    (h : dLookup d k = some v) : (k, v) ∈ d := by
  induction d with
  | nil => simp [dLookup] at h
  | cons e d ih =>
    obtain ⟨k₀, v₀⟩ := e
    by_cases hk : k₀ = k
    · subst hk
      simp [dLookup] at h
      simp [h]
    · simp [dLookup, hk] at h
      exact List.mem_cons_of_mem _ (ih h)

theorem mem_dSet {α : Type} (d : List (String × α)) (k : String) (v : α)
    (e : String × α) (h : e ∈ dSet d k v) : e ∈ d ∨ e = (k, v) := by
  induction d with
  | nil => simp [dSet] at h; simp [h]
  | cons e₀ d ih =>
    obtain ⟨k₀, v₀⟩ := e₀
    by_cases hk : k₀ = k
    · subst hk
      simp [dSet] at h
      rcases h with h | h
      · right; simp [h]
      · left; exact List.mem_cons_of_mem _ h
    · simp [dSet, hk] at h
      rcases h with h | h
      · left; simp [h]
      · rcases ih h with h' | h'
        · left; exact List.mem_cons_of_mem _ h'
        · right; exact h'

theorem keys_dSet_of_mem {α : Type} (d : List (String × α)) (k : String) (v : α)
    (h : (dLookup d k).isSome) :
    (dSet d k v).map Prod.fst = d.map Prod.fst := by
  induction d with
  | nil => simp [dLookup] at h
  | cons e d ih =>
    obtain ⟨k₀, v₀⟩ := e
    by_cases hk : k₀ = k
    · subst hk; simp [dSet]
    · simp [dLookup, hk] at h
      simp [dSet, hk, ih h]

theorem keys_dSet_of_not_mem {α : Type} (d : List (String × α)) (k : String) (v : α)
    (h : dLookup d k = none) :
    (dSet d k v).map Prod.fst = d.map Prod.fst ++ [k] := by
  induction d with
  | nil => simp [dSet]
  | cons e d ih =>
    obtain ⟨k₀, v₀⟩ := e
    by_cases hk : k₀ = k
    · subst hk; simp [dLookup] at h
    · simp [dLookup, hk] at h
      simp [dSet, hk, ih h]

theorem dLookup_none_of_not_key {α : Type} (d : List (String × α)) (k : String)
    (h : ∀ e ∈ d, e.1 ≠ k) : dLookup d k = none := by
  induction d with
  | nil => rfl
  | cons e d ih =>
    obtain ⟨k₀, v₀⟩ := e
    have hk : k₀ ≠ k := h (k₀, v₀) (List.mem_cons_self _ _)
    simp [dLookup, hk]
    exact ih (fun e he => h e (List.mem_cons_of_mem _ he))

theorem dLookup_isSome_iff {α : Type} (d : List (String × α)) (k : String) :
    (dLookup d k).isSome = true ↔ ∃ e ∈ d, e.1 = k := by
  induction d with
  | nil => simp [dLookup]
  | cons e d ih =>
    obtain ⟨k₀, v₀⟩ := e
    by_cases hk : k₀ = k
    · subst hk; simp [dLookup]
    · simp [dLookup, hk, ih]

theorem dLookup_map_const_zero (lvls : List String) (l : String) :
    dLookup (lvls.map (fun x => (x, (0 : Nat)))) l =
      if lvls.contains l then some 0 else none := by
  induction lvls with
  | nil => rfl
  | cons a t ih =>
    by_cases h : a = l
    · subst h; simp [dLookup]
    · have h2 : ¬l = a := fun hh => h hh.symm
      simp [dLookup, h, ih, h2]

/-- The keys of `zeroCounts` are exactly the five levels. -/
theorem dLookup_zeroCounts (l : String) :
    dLookup zeroCounts l = if LOG_LEVELS.contains l then some 0 else none :=
  dLookup_map_const_zero LOG_LEVELS l

/-! ## Claims about the parser and per-file aggregation (C1-C5) -/

/-- C1: the spec's end-to-end scenario claims that the two-line input file
produces merged counts `INFO=1` for `/api/v1/test/` and `ERROR=1` for
`/api/v1/error/` and a report starting `Total requests: 2`.  On the source
as checked in this is false: `parse_log_line` takes `group()` of the whole
`LOG_PATTERN` match as the level, so the per-file aggregation raises
`KeyError` on the very first line (the full bracket prefix is not a key of
the zero-initialized level dict), and `analyze` propagates the exception
instead of producing any report.  (Independently, `main.py` cannot even
start, since it imports `HANDLER_PATTERN` which `config.py` does not
define; the handler pattern is modelled from the spec here.) -/
theorem c1_end_to_end_scenario_crashes :
    parse_log_file
        ["[2024-01-01T00:00:00] [INFO] [django.requests] [/api/v1/test/] ok",
         "[2024-01-01T00:00:01] [ERROR] [django.requests] [/api/v1/error/] boom"] =
      Except.error (PyErr.keyError
        "[2024-01-01T00:00:00] [INFO] [django.requests] [/api/v1/test/]") ∧
    analyze
        (fun p =>
          if p = "app.log" then
            some ["[2024-01-01T00:00:00] [INFO] [django.requests] [/api/v1/test/] ok",
                  "[2024-01-01T00:00:01] [ERROR] [django.requests] [/api/v1/error/] boom"]
          else none)
        ["app.log"] "handlers" =
      Except.error (PyErr.keyError
        "[2024-01-01T00:00:00] [INFO] [django.requests] [/api/v1/test/]") :=
  ⟨by rfl, by rfl⟩

/-- C2: the claim says `parse_log_line` returns the line's level token
(e.g. `INFO`) paired with the handler.  On the source this is false:
`search(LOG_PATTERN, line).group()` is the whole match of the combined
pattern, so on a full-format line the returned "level" is the entire
bracket prefix, and on the short-format lines the repository's own tests
feed it (`[DEBUG] [/api/v1/test/] Test`, expected to yield `DEBUG`) the
combined pattern does not match at all and `AttributeError` is raised. -/
theorem c2_parse_log_line_level_is_whole_match :
    parse_log_line "[DEBUG] [/api/v1/test/] Test" = Except.error PyErr.attributeError ∧
    parse_log_line "[2024-01-01T00:00:00] [INFO] [django.requests] [/api/v1/test/] ok" =
      Except.ok ("[2024-01-01T00:00:00] [INFO] [django.requests] [/api/v1/test/]",
        some "/api/v1/test/") :=
  ⟨by rfl, by rfl⟩

/-- C5: the claim's continuation-attribution example
`["[INFO] [/a/] msg1", "[ERROR] no-handler-here"]` is said to aggregate to
`INFO=1, ERROR=1` under `/a/`.  On the source the first line already fails
the combined `LOG_PATTERN` (it lacks the timestamp and
`[django.requests]` brackets), so `parse_log_line` raises
`AttributeError` and aggregation aborts with no counts at all — the
repository's own tests use exactly this short line format and expect it to
parse, so the code contradicts them. -/
theorem c5_continuation_example_crashes :
    parse_log_file ["[INFO] [/a/] msg1", "[ERROR] no-handler-here"] =
      Except.error PyErr.attributeError := by
  rfl

/-- Splitting the per-file loop at an intermediate point. -/
theorem parseLines_append (l1 l2 : List String) : ∀ st,
    parseLines st (l1 ++ l2) =
      match parseLines st l1 with
      | .error e => .error e
      | .ok st' => parseLines st' l2 := by
  induction l1 with
  | nil => intro st; simp [parseLines]
  | cons a t ih =>
    intro st
    simp only [List.cons_append, parseLines]
    cases h : fileStep st a with
    | error e => simp
    | ok st' => simp [ih st']

/-- C3 counterexample: the claim says a line matching none of the patterns
(such as the empty line) never aborts per-file aggregation.  On the source
the empty line makes `search(LOG_PATTERN, line)` return `None` and the
`.group()` call raise `AttributeError`, so aggregation aborts — exactly
the behavior the repository's own test `test_parse_log_line_empty`
expects. -/
theorem c3_counterexample_empty_line_raises :
    parse_log_file [""] = Except.error PyErr.attributeError := by
  rfl

/-- C3 (amended): a line on which the level pattern does not match causes
`parse_log_line` to raise `AttributeError`, which aborts the per-file
aggregation at that line; no later line is processed and no table is
returned. -/
theorem c3_malformed_line_aborts_aggregation (pre : List String) (line : String)
    (post : List String)
    (hpre : ∃ st', parseLines (([], none) : Table × Option String) pre = Except.ok st')
    (hline : logPatternGroup0 line = none) :
    parse_log_file (pre ++ line :: post) = Except.error PyErr.attributeError := by
  obtain ⟨st', hst⟩ := hpre
  have hstep : fileStep st' line = Except.error PyErr.attributeError := by
    unfold fileStep parse_log_line
    rw [hline]
  unfold parse_log_file
  rw [parseLines_append, hst]
  simp [parseLines, hstep, Except.map]

/-- Witness for the amended C3 at a concrete file: an empty (malformed)
first line aborts even though a well-formed line follows. -/
theorem c3_malformed_line_aborts_aggregation_witness :
    parse_log_file ["", "[2024-01-01T00:00:00] [INFO] [django.requests] [/x/] ok"] =
      Except.error PyErr.attributeError :=
  c3_malformed_line_aborts_aggregation []
    "" ["[2024-01-01T00:00:00] [INFO] [django.requests] [/x/] ok"]
    ⟨(([], none) : Table × Option String), by rfl⟩ (by rfl)

/-- C4 counterexample: the claim says a line whose parsed level token is
not one of the five levels is dropped and aggregation completes.  On the
source such a line raises `KeyError` (the unrecognized level is not a key
of the zero-initialized dict), so aggregation crashes instead. -/
theorem c4_counterexample_unknown_level_raises :
    parse_log_file ["[t] [TRACE] [django.requests] [/a/] boom"] =
      Except.error (PyErr.keyError "[t] [TRACE] [django.requests] [/a/]") := by
  rfl

/-- C4 (amended): whenever a line parses to a level outside the fixed
five-level enumeration together with a handler, the per-file aggregator
raises `KeyError` on that level rather than dropping the count (only the
merger drops unrecognized levels). -/
theorem c4_unknown_level_raises_keyerror (line level h : String)
    (hparse : parse_log_line line = Except.ok (level, some h))
    (hlev : LOG_LEVELS.contains level = false) :
    parse_log_file [line] = Except.error (PyErr.keyError level) := by
  have hz : dLookup zeroCounts level = none := by
    rw [dLookup_zeroCounts, hlev]
    rfl
  have h1 : ensureNew (([], none) : Table × Option String) (some h) =
      ([(h, zeroCounts)], some h) := by
    simp [ensureNew, dLookup, dSet]
  have h2 : dLookup [(h, zeroCounts)] h = some zeroCounts := by
    simp [dLookup]
  have h3 : bumpCount zeroCounts level = Except.error (PyErr.keyError level) := by
    unfold bumpCount
    rw [hz]
  have hstep : fileStep (([], none) : Table × Option String) line =
      Except.error (PyErr.keyError level) := by
    simp only [fileStep, hparse, h1, h2, h3, Except.map]
  simp [parse_log_file, parseLines, hstep, Except.map]

/-- Witness for the amended C4 at a concrete line with level token FOO. -/
theorem c4_unknown_level_raises_keyerror_witness :
    parse_log_file ["[ts] [FOO] [django.requests] [/b/] x"] =
      Except.error (PyErr.keyError "[ts] [FOO] [django.requests] [/b/]") :=
  c4_unknown_level_raises_keyerror "[ts] [FOO] [django.requests] [/b/] x"
    "[ts] [FOO] [django.requests] [/b/]" "/b/" (by rfl) (by rfl)

/-! ## C6: fail-fast validation of input paths -/

/-- When some path is missing, `validate_files` raises `FileNotFoundError`
for a missing path. -/
theorem validate_files_error_of_missing (fs : FS) (paths : List String)
    (h : ∃ p ∈ paths, fs p = none) :
    ∃ p ∈ paths, fs p = none ∧
      validate_files fs paths = Except.error (PyErr.fileNotFound p) := by
  induction paths with
  | nil => simp at h
  | cons q rest ih =>
    by_cases hq : fs q = none
    · refine ⟨q, List.mem_cons_self _ _, hq, ?_⟩
      simp [validate_files, hq]
    · have hrest : ∃ p ∈ rest, fs p = none := by
        obtain ⟨p, hp, hnone⟩ := h
        rcases List.mem_cons.mp hp with rfl | hp'
        · exact absurd hnone hq
        · exact ⟨p, hp', hnone⟩
      obtain ⟨p, hp, hnone, hval⟩ := ih hrest
      refine ⟨p, List.mem_cons_of_mem _ hp, hnone, ?_⟩
      cases hfq : fs q with
      | none => exact absurd hfq hq
      | some v => simp [validate_files, hfq, hval]

/-- C6: when any supplied path is not an existing regular file, `analyze`
fails with `FileNotFoundError` (the spec's `NotFound`) raised by the
up-front `validate_files` pass — before any file is opened or parsed and
before any report string is produced, whatever the other files contain
and whatever the report type is. -/
theorem c6_missing_file_fails_fast (fs : FS) (paths : List String) (rt : String)
    (h : ∃ p ∈ paths, fs p = none) :
    ∃ p ∈ paths, fs p = none ∧
      analyze fs paths rt = Except.error (PyErr.fileNotFound p) := by
  obtain ⟨p, hp, hnone, hval⟩ := validate_files_error_of_missing fs paths h
  exact ⟨p, hp, hnone, by simp [analyze, hval]⟩

/-- Witness for C6 at a concrete missing path. -/
theorem c6_missing_file_fails_fast_witness :
    analyze (fun _ => none) ["missing.log"] "handlers" =
      Except.error (PyErr.fileNotFound "missing.log") := by
  obtain ⟨p, hp, hnone, hres⟩ := c6_missing_file_fails_fast (fun _ => none)
    ["missing.log"] "handlers" ⟨"missing.log", by simp, rfl⟩
  have hp' : p = "missing.log" := by simpa using hp
  rw [hp'] at hres
  exact hres

theorem levelsComplete_zeroCounts : levelsComplete zeroCounts := by
  intro l
  rw [dLookup_zeroCounts]
  cases h : LOG_LEVELS.contains l <;> simp [h]

theorem nodup_keys_zeroCounts : (zeroCounts.map Prod.fst).Nodup := by
  decide

theorem levelsComplete_dSet (c : Counts) (k : String) (v : Nat)
    (hc : levelsComplete c) (hk : (dLookup c k).isSome) :
    levelsComplete (dSet c k v) := by
  intro l
  rw [dLookup_dSet]
  by_cases hkl : k = l
  · subst hkl
    rw [← hc k] at *
    simpa using hk
  · simp [hkl, hc l]

theorem mem_keys_iff_lookup {α : Type} (d : List (String × α)) (k : String) :
    k ∈ d.map Prod.fst ↔ (dLookup d k).isSome = true := by
  rw [dLookup_isSome_iff]
  constructor
  · intro h
    obtain ⟨e, he, hek⟩ := List.mem_map.mp h
    exact ⟨e, he, hek⟩
  · rintro ⟨e, he, hek⟩
    exact List.mem_map.mpr ⟨e, he, hek⟩

theorem nodup_keys_dSet_present {α : Type} (d : List (String × α)) (k : String)
    (v : α) (hk : (dLookup d k).isSome) (hn : (d.map Prod.fst).Nodup) :
    ((dSet d k v).map Prod.fst).Nodup := by
  rw [keys_dSet_of_mem d k v hk]
  exact hn

theorem nodup_keys_dSet_absent {α : Type} (d : List (String × α)) (k : String)
    (v : α) (hk : dLookup d k = none) (hn : (d.map Prod.fst).Nodup) :
    ((dSet d k v).map Prod.fst).Nodup := by
  rw [keys_dSet_of_not_mem d k v hk]
  have hkn : k ∉ d.map Prod.fst := by
    rw [mem_keys_iff_lookup, hk]
    simp
  refine List.Nodup.append hn (List.nodup_singleton k) ?_
  intro a ha hb
  simp at hb
  subst hb
  exact hkn ha

theorem hasKey_eq_isSome {α : Type} (d : List (String × α)) (k : String) :
    hasKey d k = (dLookup d k).isSome := by
  induction d with
  | nil => rfl
  | cons e d ih =>
    obtain ⟨k₀, v₀⟩ := e
    by_cases h : k₀ = k
    · subst h; simp [hasKey, dLookup]
    · simp [hasKey, dLookup, h] at ih ⊢
      exact ih

theorem countSumAt_cons (k : String) (v : Nat) (c : Counts) (l : String) :
    countSumAt ((k, v) :: c) l = (if k = l then v else 0) + countSumAt c l := by
  simp [countSumAt]

theorem entrySumAt_cons (k : String) (c₀ : Counts) (t : Table) (h l : String) :
    entrySumAt ((k, c₀) :: t) h l =
      (if k = h then countSumAt c₀ l else 0) + entrySumAt t h l := by
  simp [entrySumAt]

theorem tablesSumAt_cons (t : Table) (ts : List Table) (h l : String) :
    tablesSumAt (t :: ts) h l = entrySumAt t h l + tablesSumAt ts h l := by
  simp [tablesSumAt]

theorem hasKey_cons {α : Type} (k : String) (v : α) (d : List (String × α))
    (h : String) : hasKey ((k, v) :: d) h = (decide (k = h) || hasKey d h) := by
  simp [hasKey]

theorem anyHasKey_cons (t : Table) (ts : List Table) (h : String) :
    anyHasKey (t :: ts) h = (hasKey t h || anyHasKey ts h) := by
  simp [anyHasKey]

theorem not_hasKey_of_notin_keys {α : Type} (d : List (String × α)) (k : String)
    (h : k ∉ d.map Prod.fst) : hasKey d k = false := by
  rw [hasKey_eq_isSome]
  cases hl : dLookup d k with
  | none => rfl
  | some v => exact absurd (List.mem_map_of_mem Prod.fst (dLookup_mem d k v hl)) h

theorem countSumAt_zero (c : Counts) (l : String)
    (h : ∀ e ∈ c, e.1 ≠ l) : countSumAt c l = 0 := by
  induction c with
  | nil => rfl
  | cons e c ih =>
    obtain ⟨k₀, n₀⟩ := e
    have he : k₀ ≠ l := h (k₀, n₀) (List.mem_cons_self _ _)
    rw [countSumAt_cons, if_neg he, ih (fun e' he' => h e' (List.mem_cons_of_mem _ he'))]

theorem entrySumAt_zero (t : Table) (h l : String)
    (hk : hasKey t h = false) : entrySumAt t h l = 0 := by
  induction t with
  | nil => rfl
  | cons e t ih =>
    obtain ⟨h₀, c₀⟩ := e
    rw [hasKey_cons] at hk
    simp only [Bool.or_eq_false_iff, decide_eq_false_iff_not] at hk
    rw [entrySumAt_cons, if_neg hk.1, ih hk.2]

theorem tablesSumAt_zero (ts : List Table) (h l : String)
    (hk : anyHasKey ts h = false) : tablesSumAt ts h l = 0 := by
  induction ts with
  | nil => rfl
  | cons t ts ih =>
    rw [anyHasKey_cons] at hk
    simp only [Bool.or_eq_false_iff] at hk
    rw [tablesSumAt_cons, entrySumAt_zero t h l hk.1, ih hk.2]

theorem countSumAt_nodup (c : Counts) (l : String)
    (hn : (c.map Prod.fst).Nodup) : countSumAt c l = cVal c l := by
  induction c with
  | nil => rfl
  | cons e c ih =>
    obtain ⟨k₀, n₀⟩ := e
    rw [List.map_cons] at hn
    obtain ⟨hnotin, hn'⟩ := List.nodup_cons.mp hn
    rw [countSumAt_cons]
    by_cases h : k₀ = l
    · subst h
      have hz : countSumAt c k₀ = 0 := by
        apply countSumAt_zero
        intro e' he' heq
        have hmem : e'.1 ∈ c.map Prod.fst := List.mem_map_of_mem Prod.fst he'
        rw [heq] at hmem
        exact hnotin hmem
      rw [if_pos rfl, hz]
      simp [cVal, dLookup]
    · rw [if_neg h, ih hn']
      simp [cVal, dLookup, h]

theorem entrySumAt_nodup (t : Table) (h l : String)
    (hn : (t.map Prod.fst).Nodup) :
    entrySumAt t h l = ((dLookup t h).map (fun c => countSumAt c l)).getD 0 := by
  induction t with
  | nil => rfl
  | cons e t ih =>
    obtain ⟨h₀, c₀⟩ := e
    rw [List.map_cons] at hn
    obtain ⟨hnotin, hn'⟩ := List.nodup_cons.mp hn
    rw [entrySumAt_cons]
    by_cases hk : h₀ = h
    · subst hk
      have hz : entrySumAt t h₀ l = 0 :=
        entrySumAt_zero t h₀ l (not_hasKey_of_notin_keys t h₀ hnotin)
      rw [if_pos rfl, hz]
      simp [dLookup]
    · rw [if_neg hk, ih hn']
      simp [dLookup, hk]

/-- Reduction of `mergeLevelStep` when the level guard passes. -/
theorem mergeLevelStep_true (h : String) (f : Table) (c : Counts) (l₀ : String)
    (n₀ : Nat) (hfc : dLookup f h = some c) (hg : LOG_LEVELS.contains l₀ = true) :
    mergeLevelStep h f (l₀, n₀) =
      dSet f h (dSet c l₀ ((dLookup c l₀).getD 0 + n₀)) := by
  unfold mergeLevelStep
  rw [hfc, if_pos hg]
  rfl

/-- Reduction of `mergeLevelStep` when the level guard fails. -/
theorem mergeLevelStep_false (h : String) (f : Table) (l₀ : String) (n₀ : Nat)
    (hg : LOG_LEVELS.contains l₀ = false) :
    mergeLevelStep h f (l₀, n₀) = f := by
  have hneg : ¬(LOG_LEVELS.contains l₀ = true) := by simpa using hg
  unfold mergeLevelStep
  rw [if_neg hneg]

/-- Effect of the inner `for level, count in levels.items()` loop of
`merge` on the table: the handler's dict gains `countSumAt` per level, the
rest of the table and its keys are untouched. -/
theorem mergeLevels_foldl (h : String) (ls : Counts) :
    ∀ (f : Table) (c : Counts), dLookup f h = some c → levelsComplete c →
      (c.map Prod.fst).Nodup →
      ∃ c', dLookup (ls.foldl (mergeLevelStep h) f) h = some c' ∧
        levelsComplete c' ∧ (c'.map Prod.fst).Nodup ∧
        (∀ l, dLookup c' l = (dLookup c l).map (fun n => n + countSumAt ls l)) ∧
        (∀ h₂, h₂ ≠ h → dLookup (ls.foldl (mergeLevelStep h) f) h₂ = dLookup f h₂) ∧
        (ls.foldl (mergeLevelStep h) f).map Prod.fst = f.map Prod.fst := by
  induction ls with
  | nil =>
    intro f c hfc hcomp hnod
    refine ⟨c, hfc, hcomp, hnod, ?_, fun h₂ _ => rfl, rfl⟩
    intro l
    cases hl : dLookup c l <;> simp [countSumAt]
  | cons e ls ih =>
    intro f c hfc hcomp hnod
    obtain ⟨l₀, n₀⟩ := e
    rw [List.foldl_cons]
    by_cases hg : LOG_LEVELS.contains l₀ = true
    · rw [mergeLevelStep_true h f c l₀ n₀ hfc hg]
      have hl₀ : (dLookup c l₀).isSome = true := (hcomp l₀).trans hg
      have hfc₁ : dLookup (dSet f h (dSet c l₀ ((dLookup c l₀).getD 0 + n₀))) h =
          some (dSet c l₀ ((dLookup c l₀).getD 0 + n₀)) := by
        rw [dLookup_dSet]
        simp
      obtain ⟨c', hc', hcomp', hnod', hvals, hothers, hkeys⟩ :=
        ih _ _ hfc₁ (levelsComplete_dSet c l₀ _ hcomp hl₀)
          (nodup_keys_dSet_present c l₀ _ hl₀ hnod)
      refine ⟨c', hc', hcomp', hnod', ?_, ?_, ?_⟩
      · intro l
        rw [hvals l, dLookup_dSet, countSumAt_cons]
        by_cases hll : l₀ = l
        · subst hll
          cases hm : dLookup c l₀ with
          | none => rw [hm] at hl₀; simp at hl₀
          | some m => simp [hm]; omega
        · cases hm : dLookup c l <;> simp [hll, hm]
      · intro h₂ hne
        rw [hothers h₂ hne, dLookup_dSet, if_neg (fun hh => hne hh.symm)]
      · rw [hkeys]
        apply keys_dSet_of_mem
        rw [hfc]
        rfl
    · have hgf : LOG_LEVELS.contains l₀ = false := by simpa using hg
      rw [mergeLevelStep_false h f l₀ n₀ hgf]
      obtain ⟨c', hc', hcomp', hnod', hvals, hothers, hkeys⟩ := ih f c hfc hcomp hnod
      refine ⟨c', hc', hcomp', hnod', ?_, hothers, hkeys⟩
      intro l
      rw [hvals l, countSumAt_cons]
      by_cases hll : l₀ = l
      · subst hll
        have hnone : (dLookup c l₀).isSome = false := (hcomp l₀).trans hgf
        cases hm : dLookup c l₀ with
        | some m => rw [hm] at hnone; simp at hnone
        | none => simp
      · cases hm : dLookup c l <;> simp [hll, hm]

/-- Effect of one entry of `data.items()` on `merge`'s accumulator. -/
theorem mergeEntry_spec (f : Table) (e : String × Counts) (hf : TInv f) :
    TInv (mergeEntry f e) ∧
    (∀ h₂, h₂ ≠ e.1 → dLookup (mergeEntry f e) h₂ = dLookup f h₂) ∧
    (dLookup (mergeEntry f e) e.1).isSome = true ∧
    (∀ l, LOG_LEVELS.contains l = true →
      tVal (mergeEntry f e) e.1 l = tVal f e.1 l + countSumAt e.2 l) := by
  obtain ⟨h₀, ls⟩ := e
  cases hpres : dLookup f h₀ with
  | some c =>
    have hni : (dLookup f h₀).isNone = false := by rw [hpres]; rfl
    have hbody : mergeEntry f (h₀, ls) = ls.foldl (mergeLevelStep h₀) f := by
      simp [mergeEntry, hni]
    obtain ⟨c', hc', hcomp', hnod', hvals, hothers, hkeys⟩ :=
      mergeLevels_foldl h₀ ls f c hpres (hf.2 h₀ c hpres).1 (hf.2 h₀ c hpres).2
    rw [hbody]
    refine ⟨⟨?_, ?_⟩, ?_, ?_, ?_⟩
    · rw [hkeys]
      exact hf.1
    · intro h₂ c₂ hc₂
      by_cases hh : h₂ = h₀
      · subst hh
        rw [hc'] at hc₂
        cases hc₂
        exact ⟨hcomp', hnod'⟩
      · rw [hothers h₂ hh] at hc₂
        exact hf.2 h₂ c₂ hc₂
    · exact fun h₂ hne => hothers h₂ hne
    · rw [hc']
      rfl
    · intro l hl
      unfold tVal cVal
      rw [hc', hpres]
      simp only [Option.getD_some]
      rw [hvals l]
      have hsome : (dLookup c l).isSome = true := ((hf.2 h₀ c hpres).1 l).trans hl
      cases hm : dLookup c l with
      | none => rw [hm] at hsome; simp at hsome
      | some m => simp [hm]
  | none =>
    have hni : (dLookup f h₀).isNone = true := by rw [hpres]; rfl
    have hfc' : dLookup (dSet f h₀ zeroCounts) h₀ = some zeroCounts := by
      rw [dLookup_dSet]
      simp
    have hbody : mergeEntry f (h₀, ls) =
        ls.foldl (mergeLevelStep h₀) (dSet f h₀ zeroCounts) := by
      simp [mergeEntry, hni]
    obtain ⟨c', hc', hcomp', hnod', hvals, hothers, hkeys⟩ :=
      mergeLevels_foldl h₀ ls (dSet f h₀ zeroCounts) zeroCounts hfc'
        levelsComplete_zeroCounts nodup_keys_zeroCounts
    rw [hbody]
    refine ⟨⟨?_, ?_⟩, ?_, ?_, ?_⟩
    · rw [hkeys]
      exact nodup_keys_dSet_absent f h₀ zeroCounts hpres hf.1
    · intro h₂ c₂ hc₂
      by_cases hh : h₂ = h₀
      · subst hh
        rw [hc'] at hc₂
        cases hc₂
        exact ⟨hcomp', hnod'⟩
      · rw [hothers h₂ hh, dLookup_dSet, if_neg (fun hh2 => hh hh2.symm)] at hc₂
        exact hf.2 h₂ c₂ hc₂
    · intro h₂ hne
      rw [hothers h₂ hne, dLookup_dSet, if_neg (fun hh => hne hh.symm)]
    · rw [hc']
      rfl
    · intro l hl
      unfold tVal cVal
      rw [hc', hpres]
      simp only [Option.getD_some, Option.getD_none]
      rw [hvals l, dLookup_zeroCounts, hl]
      simp [dLookup]

/-- Effect of one whole table of `data_list` on `merge`'s accumulator. -/
theorem mergeTable_spec (t : Table) : ∀ f, TInv f →
    TInv (mergeTable f t) ∧
    (∀ h, (dLookup (mergeTable f t) h).isSome =
      ((dLookup f h).isSome || hasKey t h)) ∧
    (∀ h l, LOG_LEVELS.contains l = true →
      tVal (mergeTable f t) h l = tVal f h l + entrySumAt t h l) := by
  induction t with
  | nil =>
    intro f hf
    refine ⟨hf, ?_, ?_⟩
    · intro h
      simp [mergeTable, hasKey]
    · intro h l _
      simp [mergeTable, entrySumAt]
  | cons e t ih =>
    intro f hf
    obtain ⟨h₀, ls⟩ := e
    obtain ⟨hI, hoth, hpres, hval⟩ := mergeEntry_spec f (h₀, ls) hf
    dsimp only at hoth hpres hval
    obtain ⟨hI', hpres', hval'⟩ := ih (mergeEntry f (h₀, ls)) hI
    have hfold : mergeTable f ((h₀, ls) :: t) = mergeTable (mergeEntry f (h₀, ls)) t := by
      simp [mergeTable]
    rw [hfold]
    refine ⟨hI', ?_, ?_⟩
    · intro h
      rw [hpres' h, hasKey_cons]
      by_cases hh : h = h₀
      · subst hh
        rw [hpres]
        simp
      · rw [hoth h hh]
        have hd : decide (h₀ = h) = false := by
          simp only [decide_eq_false_iff_not]
          exact fun hh2 => hh hh2.symm
        rw [hd]
        simp
    · intro h l hl
      rw [hval' h l hl, entrySumAt_cons]
      by_cases hh : h = h₀
      · subst hh
        rw [hval l hl, if_pos rfl]
        omega
      · have hun : dLookup (mergeEntry f (h₀, ls)) h = dLookup f h := hoth h hh
        unfold tVal cVal
        rw [hun, if_neg (fun hh2 => hh hh2.symm)]
        omega

theorem TInv_nil : TInv [] :=
  ⟨List.nodup_nil, fun h c hc => by simp [dLookup] at hc⟩

/-- Effect of the whole `for data in data_list` loop. -/
theorem mergeInto_spec (ts : List Table) : ∀ f, TInv f →
    TInv (ts.foldl mergeTable f) ∧
    (∀ h, (dLookup (ts.foldl mergeTable f) h).isSome =
      ((dLookup f h).isSome || anyHasKey ts h)) ∧
    (∀ h l, LOG_LEVELS.contains l = true →
      tVal (ts.foldl mergeTable f) h l = tVal f h l + tablesSumAt ts h l) := by
  induction ts with
  | nil =>
    intro f hf
    refine ⟨hf, ?_, ?_⟩
    · intro h
      simp [anyHasKey]
    · intro h l _
      simp [tablesSumAt]
  | cons t ts ih =>
    intro f hf
    obtain ⟨hI, hpres, hval⟩ := mergeTable_spec t f hf
    obtain ⟨hI', hpres', hval'⟩ := ih (mergeTable f t) hI
    rw [List.foldl_cons]
    refine ⟨hI', ?_, ?_⟩
    · intro h
      rw [hpres' h, hpres h, anyHasKey_cons, Bool.or_assoc]
    · intro h l hl
      rw [hval' h l hl, hval h l hl, tablesSumAt_cons]
      omega

theorem merge_TInv (ts : List Table) : TInv (merge ts) :=
  (mergeInto_spec ts [] TInv_nil).1

theorem merge_isSome (ts : List Table) (h : String) :
    (dLookup (merge ts) h).isSome = anyHasKey ts h := by
  have hs := (mergeInto_spec ts [] TInv_nil).2.1 h
  simpa [dLookup] using hs

theorem merge_tVal (ts : List Table) (h l : String)
    (hl : LOG_LEVELS.contains l = true) :
    tVal (merge ts) h l = tablesSumAt ts h l := by
  have hv := (mergeInto_spec ts [] TInv_nil).2.2 h l hl
  simpa [tVal, cVal, dLookup] using hv

/-- Full extensional characterization of `merge`: presence of a handler is
presence in some input, stored levels are exactly the five, and each
stored count is the total contribution across all inputs. -/
theorem merge_cellAt (ts : List Table) (h l : String) :
    cellAt (merge ts) h l =
      if anyHasKey ts h = true then
        some (if LOG_LEVELS.contains l = true then some (tablesSumAt ts h l) else none)
      else none := by
  cases hp : anyHasKey ts h with
  | false =>
    have hs := merge_isSome ts h
    rw [hp] at hs
    cases hm : dLookup (merge ts) h with
    | some c => rw [hm] at hs; simp at hs
    | none => simp [cellAt, hm]
  | true =>
    have hs := merge_isSome ts h
    rw [hp] at hs
    cases hm : dLookup (merge ts) h with
    | none => rw [hm] at hs; simp at hs
    | some c =>
      have hcomp := ((merge_TInv ts).2 h c hm).1
      cases hg : LOG_LEVELS.contains l with
      | false =>
        have hnone : (dLookup c l).isSome = false := (hcomp l).trans hg
        cases hcl : dLookup c l with
        | some m => rw [hcl] at hnone; simp at hnone
        | none => simp [cellAt, hm, hcl]
      | true =>
        have hv := merge_tVal ts h l hg
        unfold tVal cVal at hv
        rw [hm] at hv
        simp only [Option.getD_some] at hv
        have hsome : (dLookup c l).isSome = true := (hcomp l).trans hg
        cases hcl : dLookup c l with
        | none => rw [hcl] at hsome; simp at hsome
        | some m =>
          rw [hcl] at hv
          simp only [Option.getD_some] at hv
          simp [cellAt, hm, hcl, hv]

/-! ## C8: merge is order-independent -/

theorem anyHasKey_perm (ts1 ts2 : List Table) (hp : ts1.Perm ts2) (h : String) :
    anyHasKey ts1 h = anyHasKey ts2 h := by
  rw [Bool.eq_iff_iff]
  simp only [anyHasKey, List.any_eq_true]
  constructor
  · rintro ⟨t, ht, htk⟩
    exact ⟨t, hp.mem_iff.mp ht, htk⟩
  · rintro ⟨t, ht, htk⟩
    exact ⟨t, hp.mem_iff.mpr ht, htk⟩

theorem tablesSumAt_perm (ts1 ts2 : List Table) (hp : ts1.Perm ts2)
    (h l : String) : tablesSumAt ts1 h l = tablesSumAt ts2 h l :=
  List.Perm.sum_eq (hp.map _)

theorem tablesSumAt_append (ts1 ts2 : List Table) (h l : String) :
    tablesSumAt (ts1 ++ ts2) h l = tablesSumAt ts1 h l + tablesSumAt ts2 h l := by
  simp [tablesSumAt]

theorem anyHasKey_append (ts1 ts2 : List Table) (h : String) :
    anyHasKey (ts1 ++ ts2) h = (anyHasKey ts1 h || anyHasKey ts2 h) := by
  simp [anyHasKey]

theorem anyHasKey_pair_merge (ts1 ts2 : List Table) (h : String) :
    anyHasKey [merge ts1, merge ts2] h = (anyHasKey ts1 h || anyHasKey ts2 h) := by
  rw [anyHasKey_cons, anyHasKey_cons, hasKey_eq_isSome, hasKey_eq_isSome,
    merge_isSome, merge_isSome]
  simp [anyHasKey]

/-- Reading one merged table as a summand gives back the total of its
inputs: `merge` output tables have unique keys inside and out. -/
theorem entrySumAt_merge (ts : List Table) (h l : String)
    (hl : LOG_LEVELS.contains l = true) :
    entrySumAt (merge ts) h l = tablesSumAt ts h l := by
  rw [entrySumAt_nodup (merge ts) h l (merge_TInv ts).1]
  cases hm : dLookup (merge ts) h with
  | none =>
    have hs := merge_isSome ts h
    rw [hm] at hs
    have hz : anyHasKey ts h = false := by simpa using hs.symm
    rw [tablesSumAt_zero ts h l hz]
    rfl
  | some c =>
    have hnodc := ((merge_TInv ts).2 h c hm).2
    have hv := merge_tVal ts h l hl
    unfold tVal cVal at hv
    rw [hm] at hv
    simp only [Option.getD_some] at hv
    simp only [Option.map_some', Option.getD_some]
    rw [countSumAt_nodup c l hnodc]
    exact hv

/-- C8: merging per-file tables is order-independent.  In Python-dict
equality (`tableEqv`): `merge ts == merge (reverse ts)`, merging any
permutation gives the same table, and merging is associative in the sense
that merging all tables at once agrees with merging the two halves and
then merging the two intermediate results — because `merge` only sums the
per-(handler, level) contributions of its inputs. -/
theorem c8_merge_order_independent :
    (∀ ts : List Table, tableEqv (merge ts) (merge ts.reverse)) ∧
    (∀ ts1 ts2 : List Table, ts1.Perm ts2 → tableEqv (merge ts1) (merge ts2)) ∧
    (∀ ts1 ts2 : List Table,
      tableEqv (merge (ts1 ++ ts2)) (merge [merge ts1, merge ts2])) := by
  have hperm : ∀ ts1 ts2 : List Table, ts1.Perm ts2 →
      tableEqv (merge ts1) (merge ts2) := by
    intro ts1 ts2 hp h l
    rw [merge_cellAt, merge_cellAt, anyHasKey_perm ts1 ts2 hp h,
      tablesSumAt_perm ts1 ts2 hp h l]
  refine ⟨?_, hperm, ?_⟩
  · intro ts
    exact hperm ts ts.reverse (List.reverse_perm ts).symm
  · intro ts1 ts2 h l
    rw [merge_cellAt, merge_cellAt, anyHasKey_append, anyHasKey_pair_merge]
    by_cases hp : (anyHasKey ts1 h || anyHasKey ts2 h) = true
    · rw [if_pos hp, if_pos hp]
      by_cases hl : LOG_LEVELS.contains l = true
      · rw [if_pos hl, if_pos hl, tablesSumAt_append, tablesSumAt_cons,
          tablesSumAt_cons, entrySumAt_merge ts1 h l hl,
          entrySumAt_merge ts2 h l hl]
        simp [tablesSumAt]
      · rw [if_neg hl, if_neg hl]
    · rw [if_neg hp, if_neg hp]

/-- Witness for C8 at two concrete single-handler tables. -/
theorem c8_merge_order_independent_witness :
    cellAt (merge [[("/a/", [("INFO", 1)])], [("/a/", [("INFO", 2)])]]) "/a/" "INFO" =
      cellAt (merge [[("/a/", [("INFO", 2)])], [("/a/", [("INFO", 1)])]]) "/a/" "INFO" :=
  c8_merge_order_independent.2.1
    [[("/a/", [("INFO", 1)])], [("/a/", [("INFO", 2)])]]
    [[("/a/", [("INFO", 2)])], [("/a/", [("INFO", 1)])]]
    (List.Perm.swap _ _ _) "/a/" "INFO"

/-! ## C9: zero-fill of the five levels -/

theorem bumpCount_complete (c : Counts) (level : String) (c' : Counts)
    (hb : bumpCount c level = Except.ok c') (hc : levelsComplete c) :
    levelsComplete c' := by
  unfold bumpCount at hb
  cases hm : dLookup c level with
  | none => rw [hm] at hb; simp at hb
  | some n =>
    rw [hm] at hb
    cases hb
    exact levelsComplete_dSet c level (n + 1) hc (by rw [hm]; rfl)

theorem ensureNew_some (st : Table × Option String) (h : String) :
    ensureNew st (some h) =
      if (dLookup st.1 h).isNone = true then (dSet st.1 h zeroCounts, some h)
      else st :=
  rfl

theorem ensureNew_complete (st : Table × Option String) (ho : Option String)
    (hinv : PComplete st.1) : PComplete (ensureNew st ho).1 := by
  cases ho with
  | none => exact hinv
  | some h =>
    rw [ensureNew_some]
    by_cases hp : (dLookup st.1 h).isNone = true
    · rw [if_pos hp]
      intro h₂ c₂ hc₂
      dsimp only at hc₂
      rw [dLookup_dSet] at hc₂
      by_cases hh : h = h₂
      · rw [if_pos hh] at hc₂
        cases hc₂
        exact levelsComplete_zeroCounts
      · rw [if_neg hh] at hc₂
        exact hinv h₂ c₂ hc₂
    · rw [if_neg hp]
      exact hinv

/-- Reduction of `fileStep` on a line parsing to `(level, some hd)`. -/
theorem fileStep_handler (st : Table × Option String) (line level hd : String)
    (hp : parse_log_line line = Except.ok (level, some hd)) :
    fileStep st line =
      match dLookup (ensureNew st (some hd)).1 hd with
      | some c => (bumpCount c level).map
          (fun c' => (dSet (ensureNew st (some hd)).1 hd c', some hd))
      | none => Except.error (PyErr.keyError hd) := by
  unfold fileStep
  rw [hp]

/-- Reduction of `fileStep` on a line parsing to `(level, none)`. -/
theorem fileStep_nohandler (st : Table × Option String) (line level : String)
    (hp : parse_log_line line = Except.ok (level, none)) :
    fileStep st line =
      match st.2 with
      | some hc =>
        match dLookup st.1 hc with
        | some c => (bumpCount c level).map (fun c' => (dSet st.1 hc c', st.2))
        | none => Except.error (PyErr.keyError hc)
      | none => Except.ok st := by
  unfold fileStep
  rw [hp]
  rfl

/-- Reduction of `fileStep` on a handler line whose handler is in `data`
(always the case right after `ensureNew`). -/
theorem fileStep_handler_found (st : Table × Option String)
    (line level hd : String) (c : Counts)
    (hp : parse_log_line line = Except.ok (level, some hd))
    (hm : dLookup (ensureNew st (some hd)).1 hd = some c) :
    fileStep st line = (bumpCount c level).map
      (fun c' => (dSet (ensureNew st (some hd)).1 hd c', some hd)) := by
  rw [fileStep_handler st line level hd hp, hm]

/-- Reduction of `fileStep` on a continuation line with a cached handler
present in `data`. -/
theorem fileStep_cached_found (st : Table × Option String)
    (line level hc : String) (c : Counts)
    (hp : parse_log_line line = Except.ok (level, none))
    (hcache : st.2 = some hc) (hm : dLookup st.1 hc = some c) :
    fileStep st line = (bumpCount c level).map
      (fun c' => (dSet st.1 hc c', some hc)) := by
  have h0 := fileStep_nohandler st line level hp
  rw [hcache] at h0
  rw [h0]
  show (match dLookup st.1 hc with
        | some c2 => (bumpCount c2 level).map (fun c' => (dSet st.1 hc c', some hc))
        | none => Except.error (PyErr.keyError hc)) =
      (bumpCount c level).map (fun c' => (dSet st.1 hc c', some hc))
  rw [hm]

/-- Reduction of `fileStep` on a continuation line whose cached handler is
not a key of `data` (unreachable from the initial state, but the code
would raise `KeyError`). -/
theorem fileStep_cached_notfound (st : Table × Option String)
    (line level hc : String)
    (hp : parse_log_line line = Except.ok (level, none))
    (hcache : st.2 = some hc) (hm : dLookup st.1 hc = none) :
    fileStep st line = Except.error (PyErr.keyError hc) := by
  have h0 := fileStep_nohandler st line level hp
  rw [hcache] at h0
  rw [h0]
  show (match dLookup st.1 hc with
        | some c2 => (bumpCount c2 level).map (fun c' => (dSet st.1 hc c', some hc))
        | none => Except.error (PyErr.keyError hc)) =
      Except.error (PyErr.keyError hc)
  rw [hm]

/-- Reduction of `fileStep` on a continuation line with no cached
handler: the line contributes nothing. -/
theorem fileStep_nocache (st : Table × Option String) (line level : String)
    (hp : parse_log_line line = Except.ok (level, none))
    (hcache : st.2 = none) : fileStep st line = Except.ok st := by
  rw [fileStep_nohandler st line level hp, hcache]

theorem fileStep_complete (st st' : Table × Option String) (line : String)
    (hinv : PComplete st.1) (h : fileStep st line = Except.ok st') :
    PComplete st'.1 := by
  cases hp : parse_log_line line with
  | error e =>
    unfold fileStep at h
    rw [hp] at h
    simp at h
  | ok lv =>
    obtain ⟨level, handlerOpt⟩ := lv
    cases handlerOpt with
    | some hd =>
      have hinv1 : PComplete (ensureNew st (some hd)).1 :=
        ensureNew_complete st (some hd) hinv
      cases hm : dLookup (ensureNew st (some hd)).1 hd with
      | none =>
        rw [fileStep_handler st line level hd hp, hm] at h
        simp at h
      | some c =>
        rw [fileStep_handler_found st line level hd c hp hm] at h
        cases hb : bumpCount c level with
        | error e => rw [hb] at h; simp [Except.map] at h
        | ok c' =>
          rw [hb] at h
          simp only [Except.map] at h
          cases h
          intro h₂ c₂ hc₂
          dsimp only at hc₂
          rw [dLookup_dSet] at hc₂
          by_cases hh : hd = h₂
          · rw [if_pos hh] at hc₂
            cases hc₂
            exact bumpCount_complete c level c' hb (hinv1 hd c hm)
          · rw [if_neg hh] at hc₂
            exact hinv1 h₂ c₂ hc₂
    | none =>
      cases hcache : st.2 with
      | none =>
        rw [fileStep_nocache st line level hp hcache] at h
        cases h
        exact hinv
      | some hc =>
        cases hm : dLookup st.1 hc with
        | none =>
          rw [fileStep_cached_notfound st line level hc hp hcache hm] at h
          simp at h
        | some c =>
          rw [fileStep_cached_found st line level hc c hp hcache hm] at h
          cases hb : bumpCount c level with
          | error e => rw [hb] at h; simp [Except.map] at h
          | ok c' =>
            rw [hb] at h
            simp only [Except.map] at h
            cases h
            intro h₂ c₂ hc₂
            dsimp only at hc₂
            rw [dLookup_dSet] at hc₂
            by_cases hh : hc = h₂
            · rw [if_pos hh] at hc₂
              cases hc₂
              exact bumpCount_complete c level c' hb (hinv hc c hm)
            · rw [if_neg hh] at hc₂
              exact hinv h₂ c₂ hc₂

theorem parseLines_complete (lines : List String) :
    ∀ st st', PComplete st.1 → parseLines st lines = Except.ok st' →
      PComplete st'.1 := by
  induction lines with
  | nil =>
    intro st st' hinv h
    unfold parseLines at h
    cases h
    exact hinv
  | cons a t ih =>
    intro st st' hinv h
    unfold parseLines at h
    cases hs : fileStep st a with
    | error e => rw [hs] at h; simp at h
    | ok st₁ =>
      rw [hs] at h
      exact ih st₁ st' (fileStep_complete st st₁ a hinv hs) h

/-- C9: zero-fill invariant.  Every handler table produced by per-file
aggregation and every handler entry of a merged table stores an entry for
every one of the five fixed levels (a Nat count, hence non-negative); the
renderer treats level keys missing from an inner dict as 0 (rendering a
row from the zero-filled completion gives the same string); and merging
the empty list yields the empty table. -/
theorem c9_zero_fill :
    (∀ (lines : List String) (d : Table), parse_log_file lines = Except.ok d →
      ∀ h c, dLookup d h = some c → ∀ l, LOG_LEVELS.contains l = true →
        ∃ n, dLookup c l = some n) ∧
    (∀ (ts : List Table) (h : String) (c : Counts),
      dLookup (merge ts) h = some c → ∀ l, LOG_LEVELS.contains l = true →
        ∃ n, dLookup c l = some n) ∧
    (∀ (h : String) (c : Counts),
      format_out h c =
        format_out h (LOG_LEVELS.map (fun l => (l, (dLookup c l).getD 0)))) ∧
    merge [] = [] := by
  refine ⟨?_, ?_, ?_, rfl⟩
  · intro lines d hparse h c hc l hl
    unfold parse_log_file at hparse
    cases hp : parseLines ([], none) lines with
    | error e => rw [hp] at hparse; simp [Except.map] at hparse
    | ok st' =>
      rw [hp] at hparse
      simp only [Except.map] at hparse
      cases hparse
      have hcomp := parseLines_complete lines ([], none) st'
        (fun h c hc => by simp [dLookup] at hc) hp h c hc
      have hs : (dLookup c l).isSome = true := (hcomp l).trans hl
      cases hm : dLookup c l with
      | none => rw [hm] at hs; simp at hs
      | some n => exact ⟨n, rfl⟩
  · intro ts h c hc l hl
    have hcomp := ((merge_TInv ts).2 h c hc).1
    have hs : (dLookup c l).isSome = true := (hcomp l).trans hl
    cases hm : dLookup c l with
    | none => rw [hm] at hs; simp at hs
    | some n => exact ⟨n, rfl⟩
  · intro h c
    rfl

/-- Witness for C9 via its merge conjunct at a concrete table. -/
theorem c9_zero_fill_witness :
    ∃ n, dLookup
      [("DEBUG", 0), ("INFO", 2), ("WARNING", 0), ("ERROR", 0), ("CRITICAL", 0)]
      "INFO" = some n :=
  c9_zero_fill.2.1 [[("/a/", [("INFO", 2)])]] "/a/"
    [("DEBUG", 0), ("INFO", 2), ("WARNING", 0), ("ERROR", 0), ("CRITICAL", 0)]
    (by rfl) "INFO" (by rfl)

/-! ## C7: total consistency of the report -/

theorem sum_map_add_distrib {α : Type} (L : List α) (f g : α → Nat) :
    (L.map (fun x => f x + g x)).sum = (L.map f).sum + (L.map g).sum := by
  induction L with
  | nil => rfl
  | cons x L ih =>
    simp only [List.map_cons, List.sum_cons, ih]
    omega

theorem sum_map_zero {α : Type} (L : List α) :
    (L.map (fun _ => (0 : Nat))).sum = 0 := by
  induction L with
  | nil => rfl
  | cons x L ih => simp [ih]

theorem sum_exchange {α β : Type} (A : List α) (B : List β) (f : α → β → Nat) :
    (A.map (fun a => (B.map (f a)).sum)).sum =
      (B.map (fun b => (A.map (fun a => f a b)).sum)).sum := by
  induction A with
  | nil =>
    simp only [List.map_nil, List.sum_nil]
    rw [sum_map_zero]
  | cons a A ih =>
    simp only [List.map_cons, List.sum_cons, ih]
    rw [← sum_map_add_distrib B (f a) (fun b => (A.map (fun a => f a b)).sum)]

/-- Effect of the inner `for level in self.log_levels` loop of
`report_out` on `requests_by_level` and `total_requests`. -/
theorem levelTally_foldl (levels : Counts) (lvls : List String) :
    ∀ acc : Counts × Nat, lvls.Nodup →
      ((lvls.foldl (levelTallyStep levels) acc).2 =
        acc.2 + (lvls.map (fun l => (dLookup levels l).getD 0)).sum) ∧
      ∀ l, (dLookup (lvls.foldl (levelTallyStep levels) acc).1 l).getD 0 =
        (dLookup acc.1 l).getD 0 +
          (if l ∈ lvls then (dLookup levels l).getD 0 else 0) := by
  induction lvls with
  | nil =>
    intro acc _
    constructor
    · simp
    · intro l
      simp
  | cons l₀ rest ih =>
    intro acc hnd
    obtain ⟨hnotin, hnd'⟩ := List.nodup_cons.mp hnd
    rw [List.foldl_cons]
    obtain ⟨ht, hv⟩ := ih (levelTallyStep levels acc l₀) hnd'
    have h1 : (levelTallyStep levels acc l₀).2 =
        acc.2 + (dLookup levels l₀).getD 0 := rfl
    have h2 : (levelTallyStep levels acc l₀).1 =
        dSet acc.1 l₀ ((dLookup acc.1 l₀).getD 0 + (dLookup levels l₀).getD 0) :=
      rfl
    constructor
    · rw [ht, h1]
      simp only [List.map_cons, List.sum_cons]
      omega
    · intro l
      rw [hv l, h2, dLookup_dSet]
      by_cases hl : l₀ = l
      · subst hl
        have hni : l₀ ∉ rest := hnotin
        rw [if_pos rfl, if_neg hni, if_pos (List.mem_cons_self l₀ rest)]
        simp only [Option.getD_some]
        omega
      · have hne : ¬l = l₀ := fun hh => hl hh.symm
        rw [if_neg hl]
        by_cases hmem : l ∈ rest
        · rw [if_pos hmem, if_pos (List.mem_cons_of_mem _ hmem)]
        · have hno : l ∉ l₀ :: rest := by
            intro hcon
            rcases List.mem_cons.mp hcon with h' | h'
            · exact hne h'
            · exact hmem h'
          rw [if_neg hmem, if_neg hno]

/-- Effect of the `for handler in sorted_handlers` loop of `report_out`. -/
theorem reportRows_foldl (data : Table) (hs : List String) :
    ∀ acc : List String × Counts × Nat,
      ((hs.foldl (reportRow data) acc).2.2 =
        acc.2.2 + (hs.map (fun h => rowTotal ((dLookup data h).getD []))).sum) ∧
      ∀ l, LOG_LEVELS.contains l = true →
        (dLookup (hs.foldl (reportRow data) acc).2.1 l).getD 0 =
          (dLookup acc.2.1 l).getD 0 +
            (hs.map (fun h =>
              (dLookup ((dLookup data h).getD []) l).getD 0)).sum := by
  induction hs with
  | nil =>
    intro acc
    constructor
    · simp
    · intro l _
      simp
  | cons h₀ rest ih =>
    intro acc
    rw [List.foldl_cons]
    obtain ⟨ht, hv⟩ := ih (reportRow data acc h₀)
    have hnd : LOG_LEVELS.Nodup := by decide
    obtain ⟨ht0, hv0⟩ :=
      levelTally_foldl ((dLookup data h₀).getD []) LOG_LEVELS
        (acc.2.1, acc.2.2) hnd
    have hr2 : (reportRow data acc h₀).2.1 =
        (LOG_LEVELS.foldl (levelTallyStep ((dLookup data h₀).getD []))
          (acc.2.1, acc.2.2)).1 := rfl
    have hr3 : (reportRow data acc h₀).2.2 =
        (LOG_LEVELS.foldl (levelTallyStep ((dLookup data h₀).getD []))
          (acc.2.1, acc.2.2)).2 := rfl
    constructor
    · rw [ht, hr3, ht0]
      simp only [List.map_cons, List.sum_cons]
      have hrow : rowTotal ((dLookup data h₀).getD []) =
          (LOG_LEVELS.map
            (fun l => (dLookup ((dLookup data h₀).getD []) l).getD 0)).sum := rfl
      rw [hrow]
      omega
    · intro l hl
      rw [hv l hl, hr2, hv0 l]
      have hmem : l ∈ LOG_LEVELS := by simpa using hl
      rw [if_pos hmem]
      simp only [List.map_cons, List.sum_cons]
      omega

/-- Summing a per-entry quantity over the keys of a duplicate-free table
equals summing it over the entries. -/
theorem sum_over_keys (data : Table) (g : Counts → Nat) :
    (data.map Prod.fst).Nodup →
    ((data.map Prod.fst).map (fun h => g ((dLookup data h).getD []))).sum =
      (data.map (fun e => g e.2)).sum := by
  induction data with
  | nil => intro _; rfl
  | cons e rest ih =>
    intro hn
    obtain ⟨k, v⟩ := e
    rw [List.map_cons] at hn
    obtain ⟨hnotin, hn'⟩ := List.nodup_cons.mp hn
    simp only [List.map_cons, List.sum_cons]
    have h1 : dLookup ((k, v) :: rest) k = some v := by
      simp [dLookup]
    rw [h1]
    have h2 : (rest.map Prod.fst).map
          (fun h => g ((dLookup ((k, v) :: rest) h).getD [])) =
        (rest.map Prod.fst).map (fun h => g ((dLookup rest h).getD [])) := by
      apply List.map_congr_left
      intro h hmem
      have hne : ¬k = h := fun he => hnotin (he ▸ hmem)
      simp [dLookup, hne]
    rw [h2, ih hn']
    rfl

/-- The same, after the `sorted(data.keys())` permutation. -/
theorem sum_over_sorted (data : Table) (g : Counts → Nat)
    (hn : (data.map Prod.fst).Nodup) :
    ((sortedHandlers data).map (fun h => g ((dLookup data h).getD []))).sum =
      (data.map (fun e => g e.2)).sum := by
  have hperm : (sortedHandlers data).Perm (data.map Prod.fst) :=
    List.mergeSort_perm _ _
  rw [List.Perm.sum_eq (hperm.map _)]
  exact sum_over_keys data g hn

theorem intercalate_go_append (s : String) (l : List String) :
    ∀ x y : String,
      String.intercalate.go (x ++ y) s l = x ++ String.intercalate.go y s l := by
  induction l with
  | nil => intro x y; rfl
  | cons a l ih =>
    intro x y
    show String.intercalate.go ((x ++ y) ++ s ++ a) s l =
      x ++ String.intercalate.go (y ++ s ++ a) s l
    rw [String.append_assoc (x ++ y) s a, String.append_assoc x y (s ++ a),
      ← String.append_assoc y s a]
    exact ih x (y ++ s ++ a)

theorem intercalate_cons_cons (s x y : String) (zs : List String) :
    String.intercalate s (x :: y :: zs) =
      x ++ s ++ String.intercalate s (y :: zs) := by
  show String.intercalate.go (x ++ s ++ y) s zs =
    x ++ s ++ String.intercalate.go y s zs
  exact intercalate_go_append s zs (x ++ s) y

/-- C7: the report's leading line is `Total requests: N` where N is the
sum of every rendered body cell — per handler entry, the five per-level
counts with missing levels as 0 — and N also equals the sum of the
per-level values accumulated in `requests_by_level`, which are exactly
the numbers printed in the final total row. -/
theorem c7_total_consistency (data : Table)
    (hn : (data.map Prod.fst).Nodup) :
    ∃ rest, report_out data =
        "Total requests: " ++ toString (bodyTotal data) ++ "\n" ++ rest ∧
      (reportAcc data).2.2 = bodyTotal data ∧
      (LOG_LEVELS.map (fun l => (dLookup (reportAcc data).2.1 l).getD 0)).sum =
        bodyTotal data := by
  obtain ⟨ht, hv⟩ :=
    reportRows_foldl data (sortedHandlers data) ([reportHeader], zeroCounts, 0)
  have h22 : (reportAcc data).2.2 = bodyTotal data := by
    show ((sortedHandlers data).foldl (reportRow data)
      ([reportHeader], zeroCounts, 0)).2.2 = bodyTotal data
    rw [ht]
    have h0 : (([reportHeader], zeroCounts, 0) :
        List String × Counts × Nat).2.2 = 0 := rfl
    rw [h0, sum_over_sorted data rowTotal hn]
    simp only [bodyTotal]
    omega
  have hlevels : ∀ l, LOG_LEVELS.contains l = true →
      (dLookup (reportAcc data).2.1 l).getD 0 =
        ((sortedHandlers data).map
          (fun h => (dLookup ((dLookup data h).getD []) l).getD 0)).sum := by
    intro l hl
    have := hv l hl
    show (dLookup ((sortedHandlers data).foldl (reportRow data)
      ([reportHeader], zeroCounts, 0)).2.1 l).getD 0 = _
    rw [this]
    have hz : (dLookup ((([reportHeader], zeroCounts, 0) :
        List String × Counts × Nat)).2.1 l).getD 0 = 0 := by
      show (dLookup zeroCounts l).getD 0 = 0
      rw [dLookup_zeroCounts]
      cases hc : LOG_LEVELS.contains l <;> simp
    rw [hz]
    omega
  have h3 : (LOG_LEVELS.map
      (fun l => (dLookup (reportAcc data).2.1 l).getD 0)).sum = bodyTotal data := by
    have hcong : LOG_LEVELS.map
          (fun l => (dLookup (reportAcc data).2.1 l).getD 0) =
        LOG_LEVELS.map (fun l => ((sortedHandlers data).map
          (fun h => (dLookup ((dLookup data h).getD []) l).getD 0)).sum) := by
      apply List.map_congr_left
      intro l hmem
      exact hlevels l (by simpa using hmem)
    rw [hcong,
      sum_exchange LOG_LEVELS (sortedHandlers data)
        (fun l h => (dLookup ((dLookup data h).getD []) l).getD 0),
      sum_over_sorted data
        (fun c => (LOG_LEVELS.map (fun l => (dLookup c l).getD 0)).sum) hn]
    simp only [bodyTotal, rowTotal]
  refine ⟨String.intercalate "\n"
    ("" :: ((reportAcc data).1 ++ [pyLjust "" 25 ++ "\t" ++
      String.intercalate "\t" (LOG_LEVELS.map (fun l =>
        pyLjust (toString ((dLookup (reportAcc data).2.1 l).getD 0)) 8))])),
    ?_, h22, h3⟩
  have hrep : report_out data = String.intercalate "\n"
      (("Total requests: " ++ toString (reportAcc data).2.2) :: "" ::
        ((reportAcc data).1 ++ [pyLjust "" 25 ++ "\t" ++
          String.intercalate "\t" (LOG_LEVELS.map (fun l =>
            pyLjust (toString ((dLookup (reportAcc data).2.1 l).getD 0)) 8))])) :=
    rfl
  rw [hrep, intercalate_cons_cons, h22]

/-- Witness for C7 at a concrete one-handler table. -/
theorem c7_total_consistency_witness :
    ∃ rest, report_out [("/a/", [("INFO", 2), ("ERROR", 1)])] =
        "Total requests: " ++
          toString (bodyTotal [("/a/", [("INFO", 2), ("ERROR", 1)])]) ++
          "\n" ++ rest ∧
      (reportAcc [("/a/", [("INFO", 2), ("ERROR", 1)])]).2.2 =
        bodyTotal [("/a/", [("INFO", 2), ("ERROR", 1)])] ∧
      (LOG_LEVELS.map (fun l =>
        (dLookup (reportAcc [("/a/", [("INFO", 2), ("ERROR", 1)])]).2.1 l).getD
          0)).sum =
        bodyTotal [("/a/", [("INFO", 2), ("ERROR", 1)])] :=
  c7_total_consistency [("/a/", [("INFO", 2), ("ERROR", 1)])] (by decide)

/-! ## C10: `merge` neither mutates nor aliases its inputs -/

theorem hLevelStep_inv (hp₀ : Heap) (k : String) (st2 : Heap × HTable)
    (lc : String × Nat) (h : HInv hp₀ st2) : HInv hp₀ (hLevelStep k st2 lc) := by
  unfold hLevelStep
  by_cases hg : LOG_LEVELS.contains lc.1 = true
  · rw [if_pos hg]
    cases hrf : dLookup st2.2 k with
    | none => exact h
    | some rf =>
      obtain ⟨hlen, hframe, hrefs⟩ := h
      have hrfge : hp₀.length ≤ rf := (hrefs _ (dLookup_mem _ _ _ hrf)).1
      show HInv hp₀
        (st2.1.set rf (dSet (st2.1.getD rf []) lc.1
          ((dLookup (st2.1.getD rf []) lc.1).getD 0 + lc.2)), st2.2)
      refine ⟨?_, ?_, ?_⟩
      · show hp₀.length ≤ (st2.1.set rf _).length
        rw [List.length_set]
        exact hlen
      · intro i hi
        show (st2.1.set rf _)[i]? = hp₀[i]?
        rw [List.getElem?_set_ne (Nat.ne_of_lt (lt_of_lt_of_le hi hrfge)).symm]
        exact hframe i hi
      · intro e' he'
        obtain ⟨h1, h2⟩ := hrefs e' he'
        refine ⟨h1, ?_⟩
        show e'.2 < (st2.1.set rf _).length
        rw [List.length_set]
        exact h2
  · rw [if_neg hg]
    exact h

theorem hLevelFold_inv (hp₀ : Heap) (k : String) (ls : Counts) :
    ∀ st2, HInv hp₀ st2 → HInv hp₀ (ls.foldl (hLevelStep k) st2) := by
  induction ls with
  | nil => intro st2 h; exact h
  | cons lc ls ih =>
    intro st2 h
    rw [List.foldl_cons]
    exact ih (hLevelStep k st2 lc) (hLevelStep_inv hp₀ k st2 lc h)

theorem hMergeEntry_inv (hp₀ : Heap) (st : Heap × HTable) (e : String × Ref)
    (h : HInv hp₀ st) : HInv hp₀ (hMergeEntry st e) := by
  by_cases hpws : (dLookup st.2 e.1).isNone = true
  · have he : hMergeEntry st e =
        ((st.1 ++ [zeroCounts]).getD e.2 []).foldl (hLevelStep e.1)
          (st.1 ++ [zeroCounts], dSet st.2 e.1 st.1.length) := by
      unfold hMergeEntry
      rw [if_pos hpws]
    rw [he]
    apply hLevelFold_inv
    obtain ⟨hlen, hframe, hrefs⟩ := h
    have hlapp : (st.1 ++ [zeroCounts]).length = st.1.length + 1 := by
      rw [List.length_append]
      rfl
    refine ⟨?_, ?_, ?_⟩
    · show hp₀.length ≤ (st.1 ++ [zeroCounts]).length
      rw [hlapp]
      exact Nat.le_succ_of_le hlen
    · intro i hi
      show (st.1 ++ [zeroCounts])[i]? = hp₀[i]?
      rw [List.getElem?_append_left (lt_of_lt_of_le hi hlen)]
      exact hframe i hi
    · intro e' he'
      rcases mem_dSet _ _ _ _ he' with hmem | heq
      · obtain ⟨h1, h2⟩ := hrefs e' hmem
        refine ⟨h1, ?_⟩
        show e'.2 < (st.1 ++ [zeroCounts]).length
        rw [hlapp]
        exact Nat.lt_succ_of_lt h2
      · rw [heq]
        refine ⟨hlen, ?_⟩
        show st.1.length < (st.1 ++ [zeroCounts]).length
        rw [hlapp]
        exact Nat.lt_succ_self _
  · have he : hMergeEntry st e =
        (st.1.getD e.2 []).foldl (hLevelStep e.1) st := by
      unfold hMergeEntry
      rw [if_neg hpws]
    rw [he]
    exact hLevelFold_inv hp₀ e.1 _ st h

theorem hMergeTable_inv (hp₀ : Heap) (t : HTable) :
    ∀ st, HInv hp₀ st → HInv hp₀ (t.foldl hMergeEntry st) := by
  induction t with
  | nil => intro st h; exact h
  | cons e t ih =>
    intro st h
    rw [List.foldl_cons]
    exact ih (hMergeEntry st e) (hMergeEntry_inv hp₀ st e h)

theorem hMergeInto_inv (hp₀ : Heap) (dl : List HTable) :
    ∀ st, HInv hp₀ st →
      HInv hp₀ (dl.foldl (fun st data => data.foldl hMergeEntry st) st) := by
  induction dl with
  | nil => intro st h; exact h
  | cons t dl ih =>
    intro st h
    rw [List.foldl_cons]
    exact ih (t.foldl hMergeEntry st) (hMergeTable_inv hp₀ t st h)

/-- C10: over the explicit-heap model of `merge` (inner Python dicts as
heap cells, zero-init as allocation, `+=` as a write through the result's
own reference), merging is non-mutating and alias-free: every heap cell
that existed before the call is unchanged afterwards — so every input
table still holds exactly its old contents — and every cell referenced by
the result table was freshly allocated by the call, so the result shares
no mutable state with any valid input reference. -/
theorem c10_merge_frame_and_fresh (hp : Heap) (dl : List HTable) :
    (∀ i, i < hp.length → (hMerge hp dl).1[i]? = hp[i]?) ∧
    (∀ e ∈ (hMerge hp dl).2, hp.length ≤ e.2) := by
  have hinv : HInv hp (hMerge hp dl) := by
    unfold hMerge
    apply hMergeInto_inv
    exact ⟨Nat.le_refl _, fun i hi => rfl,
      fun e he => absurd he (List.not_mem_nil e)⟩
  exact ⟨hinv.2.1, fun e he => (hinv.2.2 e he).1⟩

/-- Witness for C10 at a concrete one-cell heap: the input cell is intact
after the merge. -/
theorem c10_merge_frame_and_fresh_witness :
    (hMerge [[("INFO", 1)]] [[("/a/", 0)]]).1[0]? = some [("INFO", 1)] := by
  have h := (c10_merge_frame_and_fresh [[("INFO", 1)]] [[("/a/", 0)]]).1 0
    (by decide)
  simpa using h

end Workmate
